import Mathlib

/-!
Shallow embedding of `sktime/datatypes/_utilities.py`.

Containers are modelled over integer-valued time indices (datetime indices
are order-isomorphic to integers for every operation used here).

* `NpArray` models `np.ndarray` of 1, 2 or 3 dimensions (outer axis first).
* `Obj.series` models a single-indexed `pd.Series`.
* `Obj.dfSingle` models a single-indexed `pd.DataFrame`; a `Column.nested`
  column has dtype `object` and holds cells that are themselves series
  (the `nested_univ` encoding).
* `Obj.dfMulti` models a `pd.DataFrame` with a `MultiIndex`: each row carries
  the tuple of all outer (non-time) levels, the time value, and a data value.
* `Obj.dfList` models a list of single-indexed one-column `pd.DataFrame`s.
* `Obj.other` models any non-handled input that still has a `len`.
-/

deriving instance DecidableEq for Except

/-- Normalization of a (possibly negative) Python slice bound against
length `n`: negative bounds count from the end and clamp at 0, nonnegative
bounds clamp at `n`. -/
def pyIdx (n : Nat) (i : Int) : Nat :=
  if i < 0 then (n + i).toNat else min i.toNat n

/-- Python slice `l[s:]`. -/
def pySliceFrom (l : List α) (s : Int) : List α :=
  l.drop (pyIdx l.length s)

/-- Python slice `l[s:e]`. -/
def pySlice (l : List α) (s e : Int) : List α :=
  (l.drop (pyIdx l.length s)).take (pyIdx l.length e - pyIdx l.length s)

/-- A numpy array of 1, 2 or 3 dimensions, stored outer axis first. -/
inductive NpArray where
  | d1 (data : List Int)
  | d2 (data : List (List Int))
  | d3 (data : List (List (List Int)))
deriving DecidableEq

/-- `obj.ndim`. -/
def NpArray.ndim : NpArray → Nat
  | .d1 _ => 1
  | .d2 _ => 2
  | .d3 _ => 3

/-- `len(obj)`, i.e. `obj.shape[0]`. -/
def NpArray.len : NpArray → Nat
  | .d1 d => d.length
  | .d2 d => d.length
  | .d3 d => d.length

/-- `obj.shape[-1]`, the size of the last (innermost) dimension. -/
def NpArray.lastDim : NpArray → Nat
  | .d1 d => d.length
  | .d2 d => (d.headD []).length
  | .d3 d => ((d.headD []).headD []).length

/-- A column of a single-indexed DataFrame: either a plain numeric column or
an object-dtype column whose cells are nested series `(index, values)`. -/
inductive Column where
  | plain (vals : List Int)
  | nested (cells : List (List Int × List Int))
deriving DecidableEq

/-- Number of entries of a column. -/
def Column.len : Column → Nat
  | .plain vs => vs.length
  | .nested cs => cs.length

/-- Whether the column has dtype `object` (the `obj.dtypes[x] == "object"`
test of `get_cutoff`). -/
def Column.isObject : Column → Bool
  | .plain _ => false
  | .nested _ => true

/-- One row of a MultiIndexed DataFrame: the tuple of outer index levels
(all levels except the last), the time value (last level), a data value. -/
abbrev MRow := List Int × Int × Int

/-- The supported container universe of `_utilities.py`. -/
inductive Obj where
  | npa (a : NpArray)
  | series (idx : List Int) (vals : List Int)
  | dfSingle (idx : List Int) (cols : List Column)
  | dfMulti (rows : List MRow)
  | dfList (tables : List (List (Int × Int)))
  | other (n : Nat)
deriving DecidableEq

/-- `len(obj)` for each supported container. -/
def Obj.len : Obj → Nat
  | .npa a => a.len
  | .series idx _ => idx.length
  | .dfSingle idx _ => idx.length
  | .dfMulti rows => rows.length
  | .dfList ts => ts.length
  | .other n => n

/-- Result of `get_cutoff`: a bare scalar index element, a `pd.Index`
(list of values), or Python `None` (the silent fallthrough). -/
inductive PdVal where
  | scalar (c : Int)
  | index (l : List Int)
  | pynone
deriving DecidableEq

/-- Python exceptions surfaced by the embedded functions.
`unsupportedType` is the `ValueError` of `get_time_index` (the spec's
`UnsupportedTypeError`); `inputType` is the `ValueError` raised by
`get_window` when scitype detection fails (the spec's `InputTypeError`);
`indexErr` models `IndexError` (positional lookup on an empty frame, and
`x.shape[-1]` on a numpy scalar, whose `shape` is the empty tuple). -/
inductive PyErr where
  | unsupportedType
  | inputType
  | indexErr
deriving DecidableEq

/-- `l[-1]` of a pandas index, written with a default for totality; every
call site is guarded by a nonemptiness check mirroring the Python guard. -/
def lastD (l : List Int) : Int := l.getLastD 0

/-- Python `max` over a nonempty list of comparable values (0 on `[]`,
which mirrors no reachable call). -/
def listMax : List Int → Int
  | [] => 0
  | h :: t => t.foldl max h

/-- `obj.loc[k].index.get_level_values(-1)[-1]`: the last time value of the
group of rows whose outer key equals `k`. -/
def groupLast (rows : List MRow) (k : List Int) : Int :=
  lastD ((rows.filter (fun r => r.1 == k)).map (fun r => r.2.1))

/-- Last index values of all cells of all object-dtype columns, in column
then row order (`[x.index[-1] for col in objcols for x in obj[col]]`). -/
def nestedLasts (cols : List Column) : List Int :=
  (cols.map (fun c =>
    match c with
    | .plain _ => []
    | .nested cs => cs.map (fun cell => lastD cell.1))).flatten

/-- Whether the DataFrame has any object-dtype column
(`len(objcols) == 0` test). -/
def hasObjCol (cols : List Column) : Bool :=
  cols.any Column.isObject

/-- `get_cutoff(obj, cutoff, return_index)` from
`sktime/datatypes/_utilities.py`.  Each branch mirrors the source:
empty input returns the offset bare; ndarray input returns
`shape + cutoff` as scalar but `RangeIndex(ci - 1, ci) = [ci - 1]` as index;
pandas inputs return the last index value (single series / plain frame) or
the maximum of per-instance last values (nested / MultiIndex / list);
any other input falls off the end of the function, i.e. returns `None`.
For the branches that take `max` over length-1 `pd.Index` objects, the
comparison used by Python's `max` is the comparison of the sole values, so
the result is the length-1 index holding the maximal value. -/
def get_cutoff (obj : Obj) (cutoff : Option Int := some 0)
    (return_index : Bool := false) : PdVal :=
  let c := cutoff.getD 0
  if obj.len = 0 then .scalar c
  else
    match obj with
    | .npa a =>
        let ci : Int := (if a.ndim = 3 then (a.lastDim : Int) else (a.len : Int)) + c
        if return_index then .index [ci - 1] else .scalar ci
    | .series idx _ =>
        if return_index then .index [lastD idx] else .scalar (lastD idx)
    | .dfSingle idx cols =>
        if hasObjCol cols = false then
          if return_index then .index [lastD idx] else .scalar (lastD idx)
        else
          let idxx := nestedLasts cols
          if return_index then .index [listMax idxx] else .scalar (listMax idxx)
    | .dfMulti rows =>
        let cutoffs := rows.map (fun r => groupLast rows r.1)
        if return_index then .index [listMax cutoffs] else .scalar (listMax cutoffs)
    | .dfList ts =>
        let idxs := ts.map (fun t => lastD (t.map (fun r => r.1)))
        if return_index then .index [listMax idxs] else .scalar (listMax idxs)
    | .other _ => .pynone

/-- A Python value a first cell can hold: a nested series (exposes `.index`),
an ndarray of positive dimension (exposes a non-empty `.shape`, no
`.index`), or a numpy scalar such as `np.int64` (no `.index`, and its
`.shape` is the empty tuple `()`). -/
inductive PyVal where
  | serV (idx : List Int) (vals : List Int)
  | arrV (a : NpArray)
  | scalarV (v : Int)
deriving DecidableEq

/-- `pd.RangeIndex(n)` as a list of integers. -/
def intRange (n : Nat) : List Int :=
  (List.range n).map Int.ofNat

/-- `_get_index(x)` from `sktime/datatypes/_utilities.py`: the object's own
`.index` if it has one, else `pd.RangeIndex(x.shape[-1])`.  A numpy scalar
has no `.index` but does expose `shape = ()`, so `x.shape[-1]` is a lookup
in an empty tuple and raises `IndexError`. -/
def py_get_index (x : PyVal) : Except PyErr (List Int) :=
  match x with
  | .serV idx _ => .ok idx
  | .arrV a => .ok (intRange a.lastDim)
  | .scalarV _ => .error .indexErr

/-- `X.iloc[0, 0]` of a single-indexed DataFrame: the first entry of the
first column (`Option.none` models the `IndexError` on an empty frame).
The first entry of a plain numeric column is returned by pandas as a numpy
scalar, hence `scalarV`; the first entry of an object column holding nested
series is that series, hence `serV`. -/
def firstCell (cols : List Column) : Option PyVal :=
  match cols with
  | [] => Option.none
  | .plain vs :: _ => vs.head?.map .scalarV
  | .nested cs :: _ => cs.head?.map (fun c => .serV c.1 c.2)

/-- `get_time_index(X)` from `sktime/datatypes/_utilities.py`.
A MultiIndexed frame is projected to the rows of its first outer key
(`X.xs(X.index.get_level_values("instances")[0], level="instances")`);
this is modelled for two-level frames whose single outer level is the
`instances` level, where selecting by the whole outer key coincides with
`xs` on that level (frames with three or more levels, whose levels need
not even contain one named `instances`, are outside the modelled scope).
A single-indexed frame or series recurses into its first cell via
`_get_index` — so a numeric cell, being a numpy scalar, raises
`IndexError` there; an ndarray goes to `_get_index` directly; everything
else (including a list of frames) raises the `ValueError`. -/
def get_time_index (X : Obj) : Except PyErr (List Int) :=
  match X with
  | .dfSingle _ cols =>
      match firstCell cols with
      | some pv => py_get_index pv
      | Option.none => .error .indexErr
  | .dfMulti rows =>
      match rows with
      | [] => .error .indexErr
      | r :: _ => .ok ((rows.filter (fun q => q.1 == r.1)).map (fun q => q.2.1))
  | .series _ vals =>
      match vals.head? with
      | some v => py_get_index (.scalarV v)
      | Option.none => .error .indexErr
  | .npa a => py_get_index (.arrV a)
  | .dfList _ => .error .unsupportedType
  | .other _ => .error .unsupportedType

/-- The per-axis slice of the ndarray branch of `get_window`
(`obj[window_start:]` or `obj[window_start:window_end]` on the outer axis).
The start bound is `max(-window_length - lag, -len(obj))` as in the source;
the second argument of the end bound's `max` is modelled from the spec
(the source line is cut off): the end bound is tail-clamped as
`max(-lag, -len(obj))`, and a computed end of 0 means slice to the end. -/
def npSlice1 (l : List β) (w lag : Int) : List β :=
  let n : Int := l.length
  let ws := max (-w - lag) (-n)
  let we := max (-lag) (-n)
  if we = 0 then pySliceFrom l ws else pySlice l ws we

/-- The ndarray branch of `get_window`, slicing the outer axis. -/
def npWindow (a : NpArray) (w lag : Int) : NpArray :=
  match a with
  | .d1 d => .d1 (npSlice1 d w lag)
  | .d2 d => .d2 (npSlice1 d w lag)
  | .d3 d => .d3 (npSlice1 d w lag)

/-- The boolean row predicate of the DataFrame branch of `get_window`:
`(time_indices > cutoff - window_length - lag) & (time_indices <= cutoff - lag)`. -/
def winPred (tc w lag t : Int) : Bool :=
  (tc - w - lag < t) && (t ≤ tc - lag)

/-- `obj.iloc[mask]`: keep the entries of `l` at the positions where the
boolean mask `m` is true. -/
def maskFilter (l : List α) (m : List Bool) : List α :=
  ((l.zip m).filter (fun p => p.2)).map (fun p => p.1)

/-- Apply a boolean row mask to a DataFrame column. -/
def colMask (m : List Bool) : Column → Column
  | .plain vs => .plain (maskFilter vs m)
  | .nested cs => .nested (maskFilter cs m)

/-- The scalar produced by `get_cutoff(obj)` with default arguments, as
consumed by the DataFrame branch of `get_window`. -/
def cutoffScalar (obj : Obj) : Int :=
  match get_cutoff obj (some 0) false with
  | .scalar s => s
  | _ => 0

/-- A batch of instance tables tagged with their outer keys: each pair is
the outer key of one instance together with its `(time, value)` rows. -/
abbrev TPair := List Int × List (Int × Int)

/-- Flatten tagged instance tables into the rows of a MultiIndexed frame,
instance order then row order, each row carrying its instance's outer key. -/
def taggedToMulti (ps : List TPair) : List MRow :=
  (ps.map (fun p => p.2.map (fun r => (p.1, r.1, r.2)))).flatten

/-- Modelled from the spec: the external conversion collaborator
(`convert_to`, not part of this repository's sources) re-encodes a list of
single-column frames as a MultiIndexed frame, instance `i` becoming outer
key `[i]`; the spec requires the conversion to be lossless. -/
def dfListToMulti (ts : List (List (Int × Int))) : List MRow :=
  taggedToMulti (ts.enum.map (fun p => (([Int.ofNat p.1] : List Int), p.2)))

/-- Modelled from the spec: the external conversion collaborator re-encodes
a nested-cell frame (single nested column case) as a MultiIndexed frame,
the frame's own index values becoming outer keys and each cell's index
becoming the inner time level. -/
def nestedToMulti (idx : List Int) (cells : List (List Int × List Int)) :
    List MRow :=
  taggedToMulti ((idx.zip cells).map (fun p =>
    (([p.1] : List Int), p.2.1.zip p.2.2)))

/-- The shared DataFrame branch of `get_window`: compute the cutoff of the
normalized container, build the boolean interval mask over the time level,
subset with it. -/
def dfMultiWindow (rows : List MRow) (w lag : Int) : List MRow :=
  let tc := cutoffScalar (.dfMulti rows)
  rows.filter (fun r => winPred tc w lag r.2.1)

/-- Modelled from the spec: the composed effect, on a list of tables, of
converting to a MultiIndexed frame, masking its rows by the time interval,
and converting back.  The cutoff is computed on the converted frame; the
mask then filters each instance's rows in place, and converting back yields
one table per instance that still has rows, in instance order — instances
whose rows are all masked away are absent from the subset frame. -/
def dfListWindow (ts : List (List (Int × Int))) (w lag : Int) :
    List (List (Int × Int)) :=
  let tc := cutoffScalar (.dfMulti (dfListToMulti ts))
  (ts.map (fun t => t.filter (fun r => winPred tc w lag r.1))).filter
    (fun t => !t.isEmpty)

/-- Modelled from the spec: the composed effect, on a nested-cell frame
(single nested column case), of converting to a MultiIndexed frame, masking
by the time interval, and converting back: each cell's `(time, value)` rows
are filtered in place against the cutoff of the converted frame, and
instances whose cell is emptied disappear from the frame's index. -/
def nestedWindow (idx : List Int) (cs : List (List Int × List Int))
    (w lag : Int) : List Int × List (List Int × List Int) :=
  let tc := cutoffScalar (.dfMulti (nestedToMulti idx cs))
  let kept := ((idx.zip cs).map (fun p =>
    (p.1, (p.2.1.zip p.2.2).filter (fun q => winPred tc w lag q.1)))).filter
    (fun p => !p.2.isEmpty)
  (kept.map (fun p => p.1),
   kept.map (fun p => (p.2.map (fun q => q.1), p.2.map (fun q => q.2))))

/-- The cells of the frame's first column when that column is an object
column (the single-nested-column case the conversion model covers); the
empty batch otherwise. -/
def firstNestedCells (cols : List Column) : List (List Int × List Int) :=
  match cols with
  | .nested cs :: _ => cs
  | _ => []

/-- `get_window(obj, window_length, lag)` from
`sktime/datatypes/_utilities.py`.  `window_length = None` returns the input
unchanged.  Containers already in one of the supported target encodings
(`np.ndarray`/`numpy3D`, plain `pd.DataFrame`, `pd-multiindex`/hier) are
sliced directly as in the source; a series, nested-cell frame or list of
frames is first re-encoded by the external conversion collaborator and the
sliced result converted back to the input encoding — the conversion is not
part of this repository's sources, so those branches embed the composed
convert/mask/convert-back effect, modelled from the spec (see
`dfListWindow` and `nestedWindow`).  An unrecognized input fails scitype
detection, the `ValueError` of the source. -/
def get_window (obj : Obj) (window_length : Option Int := Option.none)
    (lag : Int := 0) : Except PyErr Obj :=
  match window_length with
  | Option.none => .ok obj
  | some w =>
    match obj with
    | .npa a => .ok (.npa (npWindow a w lag))
    | .series idx vals =>
        let tc := cutoffScalar (.dfSingle idx [.plain vals])
        let m := idx.map (winPred tc w lag)
        .ok (.series (maskFilter idx m) (maskFilter vals m))
    | .dfSingle idx cols =>
        if hasObjCol cols then
          let back := nestedWindow idx (firstNestedCells cols) w lag
          .ok (.dfSingle back.1 [.nested back.2])
        else
          let tc := cutoffScalar (.dfSingle idx cols)
          let m := idx.map (winPred tc w lag)
          .ok (.dfSingle (maskFilter idx m) (cols.map (colMask m)))
    | .dfMulti rows => .ok (.dfMulti (dfMultiWindow rows w lag))
    | .dfList ts => .ok (.dfList (dfListWindow ts w lag))
    | .other _ => .error .inputType

/-! ### Toolkit lemmas about the list primitives -/

theorem le_foldl_max_init (t : List Int) (a : Int) : a ≤ t.foldl max a := by
  induction t generalizing a with
  | nil => exact le_refl a
  | cons h t ih => exact le_trans (le_max_left a h) (ih (max a h))

theorem le_foldl_max_of_mem {t : List Int} {x : Int} (a : Int) (hx : x ∈ t) :
    x ≤ t.foldl max a := by
  induction t generalizing a with
  | nil => cases hx
  | cons h t ih =>
    rcases List.mem_cons.mp hx with rfl | hx'
    · exact le_trans (le_max_right a x) (le_foldl_max_init t (max a x))
    · exact ih (max a h) hx'

theorem foldl_max_mem (t : List Int) (a : Int) :
    t.foldl max a = a ∨ t.foldl max a ∈ t := by
  induction t generalizing a with
  | nil => exact Or.inl rfl
  | cons h t ih =>
    rcases ih (max a h) with heq | hmem
    · rcases max_choice a h with hc | hc
      · exact Or.inl (by rw [List.foldl_cons, heq, hc])
      · exact Or.inr (by rw [List.foldl_cons, heq, hc]; exact List.mem_cons_self h t)
    · exact Or.inr (List.mem_cons_of_mem h hmem)

theorem listMax_mem {l : List Int} (h : l ≠ []) : listMax l ∈ l := by
  match l with
  | [] => exact absurd rfl h
  | x :: t =>
    rcases foldl_max_mem t x with heq | hmem
    · rw [listMax, heq]; exact List.mem_cons_self x t
    · exact List.mem_cons_of_mem x hmem

theorem le_listMax {l : List Int} {x : Int} (hx : x ∈ l) : x ≤ listMax l := by
  match l with
  | [] => cases hx
  | y :: t =>
    rcases List.mem_cons.mp hx with rfl | hx'
    · exact le_foldl_max_init t x
    · exact le_foldl_max_of_mem y hx'

theorem listMax_le {l : List Int} {b : Int} (hne : l ≠ [])
    (h : ∀ x ∈ l, x ≤ b) : listMax l ≤ b :=
  h _ (listMax_mem hne)

theorem lastD_mem {l : List Int} (h : l ≠ []) : lastD l ∈ l := by
  induction l using List.reverseRecOn with
  | nil => exact absurd rfl h
  | append_singleton xs x _ =>
    have hx : lastD (xs ++ [x]) = x := by
      simp [lastD, List.getLastD_eq_getLast?]
    rw [hx]
    exact List.mem_append_right xs (List.mem_cons_self x [])

theorem maskFilter_nil_mask (l : List α) : maskFilter l [] = [] := by
  simp [maskFilter]

theorem maskFilter_map_self (l : List α) (p : α → Bool) :
    maskFilter l (l.map p) = l.filter p := by
  induction l with
  | nil => rfl
  | cons a t ih =>
    by_cases h : p a
    · simp [maskFilter, List.filter_cons, h] at ih ⊢; exact ih
    · simp only [Bool.not_eq_true] at h
      simp [maskFilter, List.filter_cons, h] at ih ⊢; exact ih

theorem maskFilter_map_length (l : List α) (l' : List β) (p : β → Bool)
    (h : l.length = l'.length) :
    (maskFilter l (l'.map p)).length = (l'.filter p).length := by
  induction l generalizing l' with
  | nil =>
    have : l' = [] := List.eq_nil_of_length_eq_zero h.symm
    subst this; rfl
  | cons a t ih =>
    match l' with
    | [] => cases h
    | b :: t' =>
      have ht : t.length = t'.length := by simpa using h
      by_cases hb : p b
      · simp [maskFilter, List.filter_cons, hb] at ih ⊢; exact ih t' ht
      · simp only [Bool.not_eq_true] at hb
        simp [maskFilter, List.filter_cons, hb] at ih ⊢; exact ih t' ht

theorem maskFilter_all_true (l : List α) (m : List Bool)
    (hlen : l.length = m.length) (hm : ∀ b ∈ m, b = true) :
    maskFilter l m = l := by
  induction l generalizing m with
  | nil => simp [maskFilter]
  | cons a t ih =>
    match m with
    | [] => cases hlen
    | b :: m' =>
      have hb : b = true := hm b (List.mem_cons_self b m')
      subst hb
      have ht : t.length = m'.length := by simpa using hlen
      simp only [maskFilter, List.zip_cons_cons, List.filter_cons_of_pos, List.map_cons]
      exact congrArg (a :: ·) (ih m' ht (fun b hb => hm b (List.mem_cons_of_mem _ hb)))

theorem filter_getLastD {p : α → Bool} {l : List α} (d : α)
    (hne : l ≠ []) (hp : p (l.getLastD d) = true) :
    l.filter p ≠ [] ∧ (l.filter p).getLastD d = l.getLastD d := by
  induction l using List.reverseRecOn with
  | nil => exact absurd rfl hne
  | append_singleton xs x _ =>
    have hlast : (xs ++ [x]).getLastD d = x := by
      simp [List.getLastD_eq_getLast?]
    rw [hlast] at hp
    rw [List.filter_append, hlast]
    simp [List.filter_cons, hp, List.getLastD_eq_getLast?]

theorem map_filter_comp (f : α → β) (p : β → Bool) (l : List α) :
    (l.filter (fun a => p (f a))).map f = (l.map f).filter p := by
  induction l with
  | nil => rfl
  | cons a t ih =>
    by_cases h : p (f a) <;> simp [List.filter_cons, h, ih]

/-! ### Lemmas about the ndarray slice of `get_window` -/

theorem npSlice1_lag0 (l : List β) (w : Int) (hw : 1 ≤ w) :
    npSlice1 l w 0 = l.drop (l.length - w.toNat) := by
  have hwe : max (-(0 : Int)) (-(l.length : Int)) = 0 := by omega
  simp only [npSlice1, hwe, if_pos]
  unfold pySliceFrom
  congr 1
  unfold pyIdx
  split <;> omega

theorem npSlice1_lag0_length (l : List β) (w : Int) (hw : 1 ≤ w) :
    (npSlice1 l w 0).length = min w.toNat l.length := by
  rw [npSlice1_lag0 l w hw, List.length_drop]
  omega

theorem npSlice1_idem (l : List β) (w1 w2 : Int) (h1 : 1 ≤ w1) (h12 : w1 ≤ w2) :
    npSlice1 (npSlice1 l w1 0) w2 0 = npSlice1 l w1 0 := by
  have h2 : 1 ≤ w2 := le_trans h1 h12
  rw [npSlice1_lag0 _ _ h1, npSlice1_lag0 _ _ h2]
  have hz : (l.drop (l.length - w1.toNat)).length - w2.toNat = 0 := by
    rw [List.length_drop]; omega
  rw [hz, List.drop_zero]

/-! ### Predicates used to state the claims -/

/-- Whether the container is a flat numpy buffer. -/
def Obj.isNdarray : Obj → Bool
  | .npa _ => true
  | _ => false

/-- Whether the container is outside the shapes `get_cutoff` dispatches on. -/
def Obj.isOther : Obj → Bool
  | .other _ => true
  | _ => false

/-! ### Claims about `get_cutoff` -/

/-- Claim C5: for every empty container (length 0) and every offset `k`,
`get_cutoff` returns exactly the scalar `k`, for both values of
`return_index` — no length-1 index wrapping is applied. -/
theorem claim_C5_empty_cutoff (obj : Obj) (k : Int) (ri : Bool)
    (h : obj.len = 0) : get_cutoff obj (some k) ri = .scalar k := by
  simp [get_cutoff, h]

/-- Witness for C5 at an empty series with offset 5 and `return_index`
requested. -/
theorem claim_C5_witness :
    (Obj.series [] []).len = 0 ∧
      get_cutoff (.series [] []) (some 5) true = .scalar 5 :=
  ⟨by decide, claim_C5_empty_cutoff (.series [] []) 5 true (by decide)⟩

/-- Claim C6: for every non-empty input outside the handled shapes,
`get_cutoff` falls through all dispatch branches and returns Python `None`
rather than raising. -/
theorem claim_C6_silent_fallthrough (n : Nat) (k : Int) (ri : Bool)
    (h : 0 < n) : get_cutoff (.other n) (some k) ri = .pynone := by
  have hn : ¬ (Obj.other n).len = 0 := by simp [Obj.len]; omega
  simp [get_cutoff, hn]

/-- Witness for C6 at a non-empty unhandled container. -/
theorem claim_C6_witness :
    0 < 1 ∧ get_cutoff (.other 1) (some 0) false = .pynone :=
  ⟨by decide, claim_C6_silent_fallthrough 1 0 false (by decide)⟩

/-- Claim C4: for a non-empty flat buffer the scalar cutoff is
`offset + last dimension size` in the 3-dimensional case and
`offset + first dimension size` in the 1- and 2-dimensional cases; in
particular a 1-D buffer of 10 elements with offset 0 gives scalar 10. -/
theorem claim_C4_flat_buffer_cutoff :
    (∀ (d : List (List (List Int))) (k : Int), d ≠ [] →
      get_cutoff (.npa (.d3 d)) (some k) false
        = .scalar (k + (((d.headD []).headD []).length : Int))) ∧
    (∀ (d : List Int) (k : Int), d ≠ [] →
      get_cutoff (.npa (.d1 d)) (some k) false = .scalar (k + (d.length : Int))) ∧
    (∀ (d : List (List Int)) (k : Int), d ≠ [] →
      get_cutoff (.npa (.d2 d)) (some k) false = .scalar (k + (d.length : Int))) ∧
    get_cutoff (.npa (.d1 [0,1,2,3,4,5,6,7,8,9])) (some 0) false = .scalar 10 := by
  refine ⟨?_, ?_, ?_, by decide⟩ <;>
  · intro d k hd
    have hn : ¬ (d.length = 0) := by simpa [List.length_eq_zero] using hd
    simp [get_cutoff, Obj.len, NpArray.len, NpArray.ndim, NpArray.lastDim, hn,
      PdVal.scalar.injEq]
    omega

/-- Witness for C4 at a 2 × 2 × 3 buffer with offset 2 (cutoff 2 + 3 = 5). -/
theorem claim_C4_witness :
    ([[[1,2,3],[4,5,6]],[[7,8,9],[10,11,12]]] : List (List (List Int))) ≠ [] ∧
      get_cutoff (.npa (.d3 [[[1,2,3],[4,5,6]],[[7,8,9],[10,11,12]]]))
        (some 2) false = .scalar 5 :=
  ⟨by decide,
    (claim_C4_flat_buffer_cutoff.1 [[[1,2,3],[4,5,6]],[[7,8,9],[10,11,12]]] 2
      (by decide)).trans (by decide)⟩

/-- Counterexample to claim C1 as stated: for the flat buffer of 10
elements, `get_cutoff` with `return_index=True` returns the length-1 index
`[9]` (`pd.RangeIndex(cutoff_ind - 1, cutoff_ind)`), whose sole value 9
differs from the bare-scalar result 10. -/
theorem claim_C1_counterexample :
    get_cutoff (.npa (.d1 [0,1,2,3,4,5,6,7,8,9])) (some 0) true = .index [9] ∧
    get_cutoff (.npa (.d1 [0,1,2,3,4,5,6,7,8,9])) (some 0) false = .scalar 10 ∧
    (9 : Int) ≠ 10 := by
  refine ⟨by decide, by decide, by decide⟩

/-- Claim C1 as amended: for every non-empty container of a handled shape,
`get_cutoff` with `return_index=True` returns a length-1 index; its sole
value equals the bare scalar for every pandas-based container, while for a
flat numpy buffer it is the bare scalar minus one. -/
theorem claim_C1_amended (obj : Obj) (hne : ¬ obj.len = 0)
    (ho : obj.isOther = false) :
    ∃ s : Int, get_cutoff obj (some 0) false = .scalar s ∧
      get_cutoff obj (some 0) true
        = .index [if obj.isNdarray then s - 1 else s] := by
  cases obj with
  | npa a =>
      exact ⟨(if a.ndim = 3 then (a.lastDim : Int) else (a.len : Int)) + 0,
        by simp [get_cutoff, hne], by simp [get_cutoff, hne, Obj.isNdarray]⟩
  | series idx vals =>
      exact ⟨lastD idx, by simp [get_cutoff, hne],
        by simp [get_cutoff, hne, Obj.isNdarray]⟩
  | dfSingle idx cols =>
      by_cases hc : hasObjCol cols = false
      · exact ⟨lastD idx, by simp [get_cutoff, hne, hc],
          by simp [get_cutoff, hne, hc, Obj.isNdarray]⟩
      · exact ⟨listMax (nestedLasts cols), by simp [get_cutoff, hne, hc],
          by simp [get_cutoff, hne, hc, Obj.isNdarray]⟩
  | dfMulti rows =>
      exact ⟨listMax (rows.map (fun r => groupLast rows r.1)),
        by simp [get_cutoff, hne], by simp [get_cutoff, hne, Obj.isNdarray]⟩
  | dfList ts =>
      exact ⟨listMax (ts.map (fun t => lastD (t.map (fun r => r.1)))),
        by simp [get_cutoff, hne], by simp [get_cutoff, hne, Obj.isNdarray]⟩
  | other n => simp [Obj.isOther] at ho

/-- Witness for the amended C1 at a non-empty series. -/
theorem claim_C1_witness :
    (¬ (Obj.series [3, 7] [1, 2]).len = 0) ∧
      ∃ s : Int, get_cutoff (.series [3, 7] [1, 2]) (some 0) false = .scalar s ∧
        get_cutoff (.series [3, 7] [1, 2]) (some 0) true
          = .index [if (Obj.series [3, 7] [1, 2]).isNdarray then s - 1 else s] :=
  ⟨by decide, claim_C1_amended (.series [3, 7] [1, 2]) (by decide) (by decide)⟩

/-- Claim C3: for every non-empty two-level-indexed table, the scalar cutoff
is the maximum, over the instances (grouping by all index levels except the
last), of each instance's last time-index value; for every non-empty
collection of tables with non-empty members, it is the maximum of the
tables' last index values. -/
theorem claim_C3_multi_instance_cutoff :
    (∀ rows : List MRow, rows ≠ [] →
      ∃ c : Int, get_cutoff (.dfMulti rows) (some 0) false = .scalar c ∧
        (∃ r ∈ rows, groupLast rows r.1 = c) ∧
        (∀ r ∈ rows, groupLast rows r.1 ≤ c)) ∧
    (∀ ts : List (List (Int × Int)), ts ≠ [] → (∀ t ∈ ts, t ≠ []) →
      ∃ c : Int, get_cutoff (.dfList ts) (some 0) false = .scalar c ∧
        (∃ t ∈ ts, lastD (t.map (fun r => r.1)) = c) ∧
        (∀ t ∈ ts, lastD (t.map (fun r => r.1)) ≤ c)) := by
  constructor
  · intro rows hne
    have hn : ¬ (Obj.dfMulti rows).len = 0 := by
      simpa [Obj.len, List.length_eq_zero] using hne
    refine ⟨listMax (rows.map (fun r => groupLast rows r.1)),
      by simp [get_cutoff, hn], ?_, ?_⟩
    · have hmap : rows.map (fun r => groupLast rows r.1) ≠ [] := by
        simpa [List.map_eq_nil_iff] using hne
      rcases List.mem_map.mp (listMax_mem hmap) with ⟨r, hr, heq⟩
      exact ⟨r, hr, heq⟩
    · intro r hr
      exact le_listMax (List.mem_map_of_mem _ hr)
  · intro ts hne _
    have hn : ¬ (Obj.dfList ts).len = 0 := by
      simpa [Obj.len, List.length_eq_zero] using hne
    refine ⟨listMax (ts.map (fun t => lastD (t.map (fun r => r.1)))),
      by simp [get_cutoff, hn], ?_, ?_⟩
    · have hmap : ts.map (fun t => lastD (t.map (fun r => r.1))) ≠ [] := by
        simpa [List.map_eq_nil_iff] using hne
      rcases List.mem_map.mp (listMax_mem hmap) with ⟨t, ht, heq⟩
      exact ⟨t, ht, heq⟩
    · intro t ht
      exact le_listMax (List.mem_map_of_mem _ ht)

/-- Witness for C3: the spec's ragged scenario — three tables ending at
times 5, 7, 6 give cutoff 7; a ragged two-level table gives the maximal
per-instance last time. -/
theorem claim_C3_witness :
    get_cutoff (.dfList [[(0,1),(5,2)],[(0,3),(7,4)],[(6,5)]]) (some 0) false
        = .scalar 7 ∧
    (∃ c : Int,
      get_cutoff (.dfList [[(0,1),(5,2)],[(0,3),(7,4)],[(6,5)]]) (some 0) false
          = .scalar c ∧
        (∃ t ∈ ([[(0,1),(5,2)],[(0,3),(7,4)],[(6,5)]] : List (List (Int × Int))),
          lastD (t.map (fun r => r.1)) = c) ∧
        (∀ t ∈ ([[(0,1),(5,2)],[(0,3),(7,4)],[(6,5)]] : List (List (Int × Int))),
          lastD (t.map (fun r => r.1)) ≤ c)) :=
  ⟨by decide,
    claim_C3_multi_instance_cutoff.2 [[(0,1),(5,2)],[(0,3),(7,4)],[(6,5)]]
      (by decide) (by decide)⟩

/-! ### Claims about `get_time_index` -/

/-- Counterexample to claim C9 as stated: a single-index table of plain
scalar values is one of the shapes the claim calls supported, yet
`get_time_index` raises instead of returning an index — the first cell is
a numpy scalar with no `index` attribute and `shape = ()`, so `_get_index`
fails at `x.shape[-1]` with `IndexError`. -/
theorem claim_C9_counterexample :
    get_time_index (.dfSingle [0] [.plain [5]]) = .error .indexErr := by
  decide

/-- Claim C9 as amended: inputs outside {ndarray, series, table} (including
a list of tables) raise the unsupported-type error; flat buffers,
two-level-indexed tables, and nested-cell tables return an index without
raising; but a single-index table of plain scalars raises an `IndexError`
(from `shape[-1]` on its numpy-scalar first cell) instead of returning. -/
theorem claim_C9_amended :
    (∀ n, get_time_index (.other n) = .error .unsupportedType) ∧
    (∀ ts, get_time_index (.dfList ts) = .error .unsupportedType) ∧
    (∀ a, get_time_index (.npa a) = .ok (intRange a.lastDim)) ∧
    (∀ (r : MRow) (rs : List MRow), get_time_index (.dfMulti (r :: rs))
      = .ok (((r :: rs).filter (fun q => q.1 == r.1)).map (fun q => q.2.1))) ∧
    (∀ idx ci cv cells cs,
      get_time_index (.dfSingle idx (.nested ((ci, cv) :: cells) :: cs))
        = .ok ci) ∧
    (∀ idx v vs cs,
      get_time_index (.dfSingle idx (.plain (v :: vs) :: cs))
        = .error .indexErr) := by
  refine ⟨fun n => rfl, fun ts => rfl, fun a => rfl, fun r rs => rfl,
    fun idx ci cv cells cs => ?_, fun idx v vs cs => ?_⟩ <;>
    simp [get_time_index, firstCell, py_get_index]

/-- Claim C10: for a single-level-indexed table, `get_time_index` is a
function of the first cell only — the table's own row index is never
consulted — routing through `_get_index`: the cell's own index when it
exposes one, an integer range of the cell's last dimension when it exposes
a non-empty shape, and an `IndexError` for a numpy scalar (whose shape is
the empty tuple), so a plain scalar table is not handled by this path. -/
theorem claim_C10_first_cell_routing :
    (∀ idx idx' cols, get_time_index (.dfSingle idx cols)
      = get_time_index (.dfSingle idx' cols)) ∧
    (∀ idx cols, get_time_index (.dfSingle idx cols)
      = (match firstCell cols with
         | some pv => py_get_index pv
         | Option.none => .error .indexErr)) ∧
    (∀ i v, py_get_index (.serV i v) = .ok i) ∧
    (∀ a, py_get_index (.arrV a) = .ok (intRange a.lastDim)) ∧
    (∀ n, (intRange n).length = n) ∧
    (∀ v, py_get_index (.scalarV v) = .error .indexErr) := by
  refine ⟨fun idx idx' cols => rfl, fun idx cols => rfl, fun i v => rfl,
    fun a => rfl, fun n => ?_, fun v => rfl⟩
  simp [intRange]

/-! ### Claims about `get_window` -/

/-- Claim C2: for table-form containers, `get_window` keeps exactly the
entries whose time-index value lies in the half-open interval
`(t_c - w - lag, t_c - lag]` (strict lower bound, inclusive upper bound),
where `t_c` is the cutoff of the container at offset 0; the first conjunct
relates the boolean row mask of the source to that interval. -/
theorem claim_C2_window_interval :
    (∀ tc w lag t : Int,
      winPred tc w lag t = true ↔ (tc - w - lag < t ∧ t ≤ tc - lag)) ∧
    (∀ (idx : List Int) (cols : List Column) (w lag : Int),
      hasObjCol cols = false →
      get_window (.dfSingle idx cols) (some w) lag
        = .ok (.dfSingle
            (idx.filter (winPred (cutoffScalar (.dfSingle idx cols)) w lag))
            (cols.map (colMask
              (idx.map (winPred (cutoffScalar (.dfSingle idx cols)) w lag)))))) ∧
    (∀ (rows : List MRow) (w lag : Int),
      get_window (.dfMulti rows) (some w) lag
        = .ok (.dfMulti (rows.filter
            (fun r => winPred (cutoffScalar (.dfMulti rows)) w lag r.2.1)))) := by
  refine ⟨?_, ?_, ?_⟩
  · intro tc w lag t
    simp [winPred, Bool.and_eq_true, decide_eq_true_eq]
  · intro idx cols w lag hc
    show (if hasObjCol cols = true then _ else _) = _
    rw [hc, if_neg (by simp), maskFilter_map_self]
  · intro rows w lag
    rfl

/-- Witness for C2 at a concrete 4-row table with window 2 and lag 1. -/
theorem claim_C2_witness :
    hasObjCol [Column.plain [10,20,30,40]] = false ∧
    get_window (.dfSingle [1,2,3,4] [.plain [10,20,30,40]]) (some 2) 1
      = .ok (.dfSingle
          ([1,2,3,4].filter
            (winPred (cutoffScalar (.dfSingle [1,2,3,4] [.plain [10,20,30,40]])) 2 1))
          ([Column.plain [10,20,30,40]].map (colMask
            ([1,2,3,4].map
              (winPred (cutoffScalar (.dfSingle [1,2,3,4] [.plain [10,20,30,40]])) 2 1))))) ∧
    get_window (.dfSingle [1,2,3,4] [.plain [10,20,30,40]]) (some 2) 1
      = .ok (.dfSingle [2,3] [.plain [20,30]]) :=
  ⟨by decide,
    claim_C2_window_interval.2.1 [1,2,3,4] [.plain [10,20,30,40]] 2 1 (by decide),
    by decide⟩

/-- Claim C7: on the flat-buffer form, the slice bounds of `get_window` are
`max(-window_length - lag, -n)` and `max(-lag, -n)` with a computed end of 0
meaning "slice to the end" (see `npSlice1`; the second bound is modelled
from the spec since the source line is cut off); consequently with lag 0
and positive window length the result is the trailing
`min(window_length, n)` entries and is non-empty. -/
theorem claim_C7_flat_window_lag0 (d : List Int) (w : Int)
    (hw : 1 ≤ w) (hne : d ≠ []) :
    get_window (.npa (.d1 d)) (some w) 0
        = .ok (.npa (.d1 (d.drop (d.length - w.toNat)))) ∧
    (npSlice1 d w 0).length = min w.toNat d.length ∧
    npSlice1 d w 0 ≠ [] := by
  refine ⟨?_, npSlice1_lag0_length d w hw, ?_⟩
  · show Except.ok (Obj.npa (.d1 (npSlice1 d w 0))) = _
    rw [npSlice1_lag0 d w hw]
  · have hlen : (npSlice1 d w 0).length = min w.toNat d.length :=
      npSlice1_lag0_length d w hw
    have hd : d.length ≠ 0 := by simpa [List.length_eq_zero] using hne
    intro hcon
    rw [hcon] at hlen
    simp only [List.length_nil] at hlen
    omega

/-- Witness for C7 at a 5-element buffer with window 3. -/
theorem claim_C7_witness :
    (1 : Int) ≤ 3 ∧ ([1,2,3,4,5] : List Int) ≠ [] ∧
    (get_window (.npa (.d1 [1,2,3,4,5])) (some 3) 0
        = .ok (.npa (.d1 ([1,2,3,4,5].drop (5 - (3 : Int).toNat)))) ∧
      (npSlice1 ([1,2,3,4,5] : List Int) 3 0).length = min (3 : Int).toNat 5 ∧
      npSlice1 ([1,2,3,4,5] : List Int) 3 0 ≠ []) :=
  ⟨by decide, by decide, claim_C7_flat_window_lag0 [1,2,3,4,5] 3 (by decide) (by decide)⟩

/-! ### Supporting lemmas for window idempotence -/

theorem cutoffScalar_dfSingle_plain (idx : List Int) (cols : List Column)
    (hc : hasObjCol cols = false) (hne : idx ≠ []) :
    cutoffScalar (.dfSingle idx cols) = lastD idx := by
  have hn : ¬ (Obj.dfSingle idx cols).len = 0 := by
    simpa [Obj.len, List.length_eq_zero] using hne
  simp [cutoffScalar, get_cutoff, hn, hc]

theorem cutoffScalar_dfMulti (rows : List MRow) (hne : rows ≠ []) :
    cutoffScalar (.dfMulti rows)
      = listMax (rows.map (fun r => groupLast rows r.1)) := by
  have hn : ¬ (Obj.dfMulti rows).len = 0 := by
    simpa [Obj.len, List.length_eq_zero] using hne
  simp [cutoffScalar, get_cutoff, hn]

theorem winPred_self (tc w : Int) (hw : 1 ≤ w) : winPred tc w 0 tc = true := by
  simp [winPred]; omega

theorem winPred_mono {tc w1 w2 t : Int} (h12 : w1 ≤ w2)
    (h : winPred tc w1 0 t = true) : winPred tc w2 0 t = true := by
  simp [winPred] at h ⊢; omega

theorem winPred_le {tc w t : Int} (h : winPred tc w 0 t = true) : t ≤ tc := by
  simp [winPred] at h; omega

theorem map_winPred_all_true {idx1 : List Int} {tc w2 : Int}
    (h : ∀ t ∈ idx1, winPred tc w2 0 t = true) :
    ∀ b ∈ idx1.map (winPred tc w2 0), b = true := by
  intro b hb
  rcases List.mem_map.mp hb with ⟨t, ht, rfl⟩
  exact h t ht

theorem idx_filter_stable (idx : List Int) (w1 w2 : Int)
    (h1 : 1 ≤ w1) (h12 : w1 ≤ w2) (hne : idx ≠ []) :
    idx.filter (winPred (lastD idx) w1 0) ≠ [] ∧
    lastD (idx.filter (winPred (lastD idx) w1 0)) = lastD idx ∧
    ∀ t ∈ idx.filter (winPred (lastD idx) w1 0),
      winPred (lastD idx) w2 0 t = true := by
  obtain ⟨hfne, hfl⟩ :=
    filter_getLastD (p := winPred (lastD idx) w1 0) (l := idx) 0 hne
      (winPred_self (lastD idx) w1 h1)
  refine ⟨hfne, hfl, ?_⟩
  intro t ht
  exact winPred_mono h12 (List.of_mem_filter ht)

theorem isObject_colMask (m : List Bool) (c : Column) :
    (colMask m c).isObject = c.isObject := by
  cases c <;> rfl

theorem hasObjCol_map_colMask (m : List Bool) (cols : List Column) :
    hasObjCol (cols.map (colMask m)) = hasObjCol cols := by
  simp [hasObjCol, List.any_map, Function.comp_def, isObject_colMask]

theorem colMask_map_len (c : Column) (idx : List Int) (p : Int → Bool)
    (h : c.len = idx.length) :
    (colMask (idx.map p) c).len = (idx.filter p).length := by
  cases c with
  | plain vs =>
      simpa [colMask, Column.len]
        using maskFilter_map_length vs idx p (by simpa [Column.len] using h)
  | nested cs =>
      simpa [colMask, Column.len]
        using maskFilter_map_length cs idx p (by simpa [Column.len] using h)

theorem colMask_all_true (c : Column) (m : List Bool) (hlen : c.len = m.length)
    (hm : ∀ b ∈ m, b = true) : colMask m c = c := by
  cases c with
  | plain vs =>
      simp only [colMask]
      rw [maskFilter_all_true vs m (by simpa [Column.len] using hlen) hm]
  | nested cs =>
      simp only [colMask]
      rw [maskFilter_all_true cs m (by simpa [Column.len] using hlen) hm]

theorem colMask_nil_idem (c : Column) : colMask [] (colMask [] c) = colMask [] c := by
  cases c <;> simp [colMask, maskFilter]

theorem get_window_dfSingle_plain (idx : List Int) (cols : List Column)
    (w lag : Int) (hc : hasObjCol cols = false) :
    get_window (.dfSingle idx cols) (some w) lag
      = .ok (.dfSingle
          (idx.filter (winPred (cutoffScalar (.dfSingle idx cols)) w lag))
          (cols.map (colMask
            (idx.map (winPred (cutoffScalar (.dfSingle idx cols)) w lag))))) := by
  show (if hasObjCol cols = true then _ else _) = _
  rw [hc, if_neg (by simp), maskFilter_map_self]

theorem get_window_series (idx vals : List Int) (w lag : Int) :
    get_window (.series idx vals) (some w) lag
      = .ok (.series
          (idx.filter (winPred (cutoffScalar (.dfSingle idx [.plain vals])) w lag))
          (maskFilter vals
            (idx.map (winPred (cutoffScalar (.dfSingle idx [.plain vals])) w lag)))) := by
  show Except.ok (Obj.series (maskFilter idx _) (maskFilter vals _)) = _
  rw [maskFilter_map_self]

theorem npWindow_idem (a : NpArray) (w1 w2 : Int)
    (h1 : 1 ≤ w1) (h12 : w1 ≤ w2) :
    npWindow (npWindow a w1 0) w2 0 = npWindow a w1 0 := by
  cases a with
  | d1 d => exact congrArg NpArray.d1 (npSlice1_idem d w1 w2 h1 h12)
  | d2 d => exact congrArg NpArray.d2 (npSlice1_idem d w1 w2 h1 h12)
  | d3 d => exact congrArg NpArray.d3 (npSlice1_idem d w1 w2 h1 h12)

theorem dfMulti_window_stable (rows : List MRow) (w1 w2 : Int)
    (h1 : 1 ≤ w1) (h12 : w1 ≤ w2) :
    dfMultiWindow (dfMultiWindow rows w1 0) w2 0 = dfMultiWindow rows w1 0 := by
  by_cases hne : rows = []
  · subst hne; rfl
  · have htc : cutoffScalar (.dfMulti rows)
        = listMax (rows.map (fun r => groupLast rows r.1)) :=
      cutoffScalar_dfMulti rows hne
    set tc := cutoffScalar (.dfMulti rows) with htcdef
    set p1 : Int → Bool := winPred tc w1 0 with hp1
    set rows1 := rows.filter (fun r => p1 r.2.1) with hrows1
    have hwin1 : dfMultiWindow rows w1 0 = rows1 := rfl
    -- the cutoff is attained as the group-last of some row's key
    have hmapne : rows.map (fun r => groupLast rows r.1) ≠ [] := by
      simpa [List.map_eq_nil_iff] using hne
    have htcmem : tc ∈ rows.map (fun r => groupLast rows r.1) :=
      htc ▸ listMax_mem hmapne
    obtain ⟨rstar, hrstar, hgl⟩ := List.mem_map.mp htcmem
    set k := rstar.1 with hk
    set g := rows.filter (fun r => r.1 == k) with hg
    have hrg : rstar ∈ g := List.mem_filter.mpr ⟨hrstar, by simp [hk]⟩
    have hgne : g ≠ [] := List.ne_nil_of_mem hrg
    have hgtne : g.map (fun r => r.2.1) ≠ [] := by
      simpa [List.map_eq_nil_iff] using hgne
    have hlast : lastD (g.map (fun r => r.2.1)) = tc := hgl
    obtain ⟨hfne, hflast⟩ :=
      filter_getLastD (p := p1) (l := g.map (fun r => r.2.1)) 0 hgtne
        (by rw [show (g.map (fun r => r.2.1)).getLastD 0 = tc from hlast]
            exact winPred_self tc w1 h1)
    -- the group of k inside rows1 is the p1-filtered group of k in rows
    have hcomm : rows1.filter (fun r => r.1 == k) = g.filter (fun r => p1 r.2.1) := by
      rw [hrows1, hg, List.filter_filter, List.filter_filter]
      exact List.filter_congr (fun r _ => by rw [Bool.and_comm])
    have hmapcomm : (rows1.filter (fun r => r.1 == k)).map (fun r => r.2.1)
        = (g.map (fun r => r.2.1)).filter p1 := by
      rw [hcomm]
      exact map_filter_comp (fun r => r.2.1) p1 g
    have hgroup1 : groupLast rows1 k = tc := by
      unfold groupLast
      rw [hmapcomm]
      exact hflast.trans hlast
    -- a surviving row with key k
    have hsurv : ∃ q, q ∈ rows1 ∧ q.1 = k := by
      have hfil : g.filter (fun r => p1 r.2.1) ≠ [] := by
        intro hcon
        rw [hcomm] at hmapcomm
        rw [hcon] at hmapcomm
        exact hfne hmapcomm.symm
      obtain ⟨q, hq⟩ := List.exists_mem_of_ne_nil _ hfil
      have hqg : q ∈ g := List.mem_of_mem_filter hq
      have hqp : p1 q.2.1 = true := (List.mem_filter.mp hq).2
      have hqk : q.1 = k := by
        have := List.of_mem_filter hqg
        exact eq_of_beq this
      exact ⟨q, List.mem_filter.mpr ⟨List.mem_of_mem_filter hqg, hqp⟩, hqk⟩
    obtain ⟨qs, hqs1, hqsk⟩ := hsurv
    have hrows1ne : rows1 ≠ [] := List.ne_nil_of_mem hqs1
    -- every group-last inside rows1 is bounded by tc
    have hub : ∀ r ∈ rows1, groupLast rows1 r.1 ≤ tc := by
      intro r hr
      have hrgrp : r ∈ rows1.filter (fun q => q.1 == r.1) :=
        List.mem_filter.mpr ⟨hr, by simp⟩
      have hgrpne : (rows1.filter (fun q => q.1 == r.1)).map (fun q => q.2.1) ≠ [] := by
        simpa [List.map_eq_nil_iff] using List.ne_nil_of_mem hrgrp
      have hmem := lastD_mem hgrpne
      rcases List.mem_map.mp hmem with ⟨q, hq, hqt⟩
      have hq1 : q ∈ rows1 := List.mem_of_mem_filter hq
      have hpq : p1 q.2.1 = true := by
        rw [hrows1] at hq1
        exact (List.mem_filter.mp hq1).2
      have : q.2.1 ≤ tc := winPred_le hpq
      calc groupLast rows1 r.1
          = lastD ((rows1.filter (fun q => q.1 == r.1)).map (fun q => q.2.1)) := rfl
        _ = q.2.1 := hqt.symm
        _ ≤ tc := this
    -- the cutoff of the windowed table equals the original cutoff
    have htc1 : cutoffScalar (.dfMulti rows1) = tc := by
      rw [cutoffScalar_dfMulti rows1 hrows1ne]
      apply le_antisymm
      · apply listMax_le (by simpa [List.map_eq_nil_iff] using hrows1ne)
        intro x hx
        rcases List.mem_map.mp hx with ⟨r, hr, rfl⟩
        exact hub r hr
      · have : groupLast rows1 qs.1 = tc := by rw [hqsk]; exact hgroup1
        exact this ▸ le_listMax (List.mem_map_of_mem _ hqs1)
    -- reapplying the (wider) window keeps every surviving row
    rw [hwin1]
    show (dfMultiWindow rows1 w2 0) = rows1
    unfold dfMultiWindow
    rw [htc1]
    apply List.filter_eq_self.mpr
    intro r hr
    have hp1r : p1 r.2.1 = true := by
      rw [hrows1] at hr
      exact (List.mem_filter.mp hr).2
    exact winPred_mono h12 hp1r

/-! ### Lemmas about the tagged instance batches behind the conversions -/

theorem taggedToMulti_cons (q : TPair) (qs : List TPair) :
    taggedToMulti (q :: qs)
      = q.2.map (fun r => (q.1, r.1, r.2)) ++ taggedToMulti qs := by
  simp [taggedToMulti]

theorem key_mem_of_mem_tagged {r : MRow} {ps : List TPair}
    (h : r ∈ taggedToMulti ps) :
    ∃ p ∈ ps, r.1 = p.1 ∧ (r.2.1, r.2.2) ∈ p.2 := by
  induction ps with
  | nil => cases h
  | cons q qs ih =>
    rw [taggedToMulti_cons] at h
    rcases List.mem_append.mp h with h1 | h2
    · rcases List.mem_map.mp h1 with ⟨x, hx, rfl⟩
      exact ⟨q, List.mem_cons_self q qs, rfl, by simpa using hx⟩
    · rcases ih h2 with ⟨p, hp, hk, hx⟩
      exact ⟨p, List.mem_cons_of_mem q hp, hk, hx⟩

theorem mem_tagged_of_mem {p : TPair} {x : Int × Int} {ps : List TPair}
    (hp : p ∈ ps) (hx : x ∈ p.2) : (p.1, x.1, x.2) ∈ taggedToMulti ps := by
  induction ps with
  | nil => cases hp
  | cons q qs ih =>
    rw [taggedToMulti_cons]
    rcases List.mem_cons.mp hp with rfl | hp'
    · exact List.mem_append_left _ (List.mem_map_of_mem _ hx)
    · exact List.mem_append_right _ (ih hp')

theorem tagged_filter_key {ps : List TPair}
    (hnd : (ps.map (fun p => p.1)).Nodup) {p : TPair} (hp : p ∈ ps) :
    (taggedToMulti ps).filter (fun r => r.1 == p.1)
      = p.2.map (fun x => (p.1, x.1, x.2)) := by
  induction ps with
  | nil => cases hp
  | cons q qs ih =>
    rw [List.map_cons] at hnd
    have hnd1 : q.1 ∉ qs.map (fun p => p.1) := (List.nodup_cons.mp hnd).1
    have hnd2 : (qs.map (fun p => p.1)).Nodup := (List.nodup_cons.mp hnd).2
    rw [taggedToMulti_cons, List.filter_append]
    rcases List.mem_cons.mp hp with rfl | hp'
    · have h1 : (p.2.map (fun r => (p.1, r.1, r.2))).filter (fun r => r.1 == p.1)
          = p.2.map (fun r => (p.1, r.1, r.2)) := by
        apply List.filter_eq_self.mpr
        intro a ha
        rcases List.mem_map.mp ha with ⟨x, _, rfl⟩
        simp
      have h2 : (taggedToMulti qs).filter (fun r => r.1 == p.1) = [] := by
        apply List.filter_eq_nil_iff.mpr
        intro a ha
        rcases key_mem_of_mem_tagged ha with ⟨p', hp', hk, _⟩
        simp only [beq_iff_eq, hk]
        intro hcon
        exact hnd1 (hcon ▸ List.mem_map_of_mem _ hp')
      rw [h1, h2, List.append_nil]
    · have hq : q.1 ≠ p.1 := by
        intro hcon
        exact hnd1 (hcon ▸ List.mem_map_of_mem _ hp')
      have h1 : (q.2.map (fun r => (q.1, r.1, r.2))).filter (fun r => r.1 == p.1)
          = [] := by
        apply List.filter_eq_nil_iff.mpr
        intro a ha
        rcases List.mem_map.mp ha with ⟨x, _, rfl⟩
        simpa using hq
      rw [h1, List.nil_append, ih hnd2 hp']

/-- The cutoff of the MultiIndexed frame built from tagged instance tables
is the maximum of the tables' last time values, provided the keys are
distinct and each table is non-empty. -/
theorem tagged_cutoff {ps : List TPair} (hne : ps ≠ [])
    (hnd : (ps.map (fun p => p.1)).Nodup)
    (htb : ∀ p ∈ ps, p.2 ≠ []) :
    cutoffScalar (.dfMulti (taggedToMulti ps))
      = listMax (ps.map (fun p => lastD (p.2.map (fun x => x.1)))) := by
  obtain ⟨p0, hp0⟩ := List.exists_mem_of_ne_nil ps hne
  obtain ⟨x0, hx0⟩ := List.exists_mem_of_ne_nil p0.2 (htb p0 hp0)
  have hrne : taggedToMulti ps ≠ [] :=
    List.ne_nil_of_mem (mem_tagged_of_mem hp0 hx0)
  rw [cutoffScalar_dfMulti _ hrne]
  have hgl : ∀ p ∈ ps, groupLast (taggedToMulti ps) p.1
      = lastD (p.2.map (fun x => x.1)) := by
    intro p hp
    unfold groupLast
    rw [tagged_filter_key hnd hp, List.map_map]
    rfl
  apply le_antisymm
  · apply listMax_le (by simpa [List.map_eq_nil_iff] using hrne)
    intro y hy
    rcases List.mem_map.mp hy with ⟨r, hr, rfl⟩
    rcases key_mem_of_mem_tagged hr with ⟨p, hp, hk, _⟩
    rw [hk, hgl p hp]
    exact le_listMax (List.mem_map_of_mem _ hp)
  · apply listMax_le (by simpa [List.map_eq_nil_iff] using hne)
    intro y hy
    rcases List.mem_map.mp hy with ⟨p, hp, rfl⟩
    obtain ⟨x, hx⟩ := List.exists_mem_of_ne_nil p.2 (htb p hp)
    have h2 : groupLast (taggedToMulti ps) p.1
        ∈ (taggedToMulti ps).map (fun r => groupLast (taggedToMulti ps) r.1) :=
      List.mem_map.mpr ⟨(p.1, x.1, x.2), mem_tagged_of_mem hp hx, rfl⟩
    rw [← hgl p hp]
    exact le_listMax h2

theorem filter_fst_getLastD (t : List (Int × Int)) (p : Int → Bool)
    (hne : t ≠ []) (hp : p (lastD (t.map (fun r => r.1))) = true) :
    t.filter (fun r => p r.1) ≠ [] ∧
    lastD ((t.filter (fun r => p r.1)).map (fun r => r.1))
      = lastD (t.map (fun r => r.1)) := by
  have hmne : t.map (fun r => r.1) ≠ [] := by
    simpa [List.map_eq_nil_iff] using hne
  have hp' : p ((t.map (fun r => r.1)).getLastD 0) = true := hp
  obtain ⟨h1, h2⟩ :=
    filter_getLastD (p := p) (l := t.map (fun r => r.1)) 0 hmne hp'
  constructor
  · intro hcon
    rw [← map_filter_comp (fun r => r.1) p t] at h1
    rw [hcon] at h1
    exact h1 rfl
  · rw [map_filter_comp]
    exact h2

theorem map_fst_zip_eq (l1 : List Int) (l2 : List α) (h : l1.length = l2.length) :
    (l1.zip l2).map (fun q => q.1) = l1 :=
  List.map_fst_zip l1 l2 (le_of_eq h)

/-- The singleton-key tagging function is injective. -/
theorem singleton_ofNat_injective :
    Function.Injective (fun i : Nat => ([Int.ofNat i] : List Int)) := by
  intro a b h
  simpa using h

/-- The cutoff `get_window` computes for a list of tables — the cutoff of
its conversion to a MultiIndexed frame — is the maximum of the tables'
last index values. -/
theorem dfListToMulti_cutoff (ts : List (List (Int × Int))) (hne : ts ≠ [])
    (hwf : ∀ t ∈ ts, t ≠ []) :
    cutoffScalar (.dfMulti (dfListToMulti ts))
      = listMax (ts.map (fun t => lastD (t.map (fun r => r.1)))) := by
  unfold dfListToMulti
  have hne' : ts.enum.map
      (fun p => (([Int.ofNat p.1] : List Int), p.2)) ≠ [] := by
    simp only [ne_eq, List.map_eq_nil_iff]
    intro hcon
    exact hne (by simpa using congrArg (List.map Prod.snd) hcon)
  have hnd : ((ts.enum.map (fun p => (([Int.ofNat p.1] : List Int), p.2))).map
      (fun p => p.1)).Nodup := by
    rw [List.map_map]
    rw [show ((fun (p : TPair) => p.1) ∘
        (fun (p : Nat × List (Int × Int)) =>
          (([Int.ofNat p.1] : List Int), p.2)))
      = ((fun i => ([Int.ofNat i] : List Int)) ∘ Prod.fst) from rfl]
    rw [← List.map_map, List.enum_map_fst]
    exact (List.nodup_range _).map singleton_ofNat_injective
  have htb : ∀ p ∈ ts.enum.map
      (fun p => (([Int.ofNat p.1] : List Int), p.2)), p.2 ≠ [] := by
    intro p hp
    rcases List.mem_map.mp hp with ⟨q, hq, rfl⟩
    have hqt : q.2 ∈ ts := by
      have := List.mem_map_of_mem Prod.snd hq
      rwa [List.enum_map_snd] at this
    exact hwf q.2 hqt
  rw [tagged_cutoff hne' hnd htb, List.map_map]
  rw [show ((fun (p : TPair) => lastD (p.2.map (fun x => x.1))) ∘
      (fun (p : Nat × List (Int × Int)) =>
        (([Int.ofNat p.1] : List Int), p.2)))
    = ((fun t => lastD (t.map (fun r => r.1))) ∘ Prod.snd) from rfl]
  rw [← List.map_map, List.enum_map_snd]

/-- Reapplying an equal-or-larger df-list window at lag 0 is the identity
on the first window's output. -/
theorem dfListWindow_stable (ts : List (List (Int × Int))) (w1 w2 : Int)
    (h1 : 1 ≤ w1) (h12 : w1 ≤ w2) (hwf : ∀ t ∈ ts, t ≠ []) :
    dfListWindow (dfListWindow ts w1 0) w2 0 = dfListWindow ts w1 0 := by
  by_cases hnets : ts = []
  · subst hnets; rfl
  set tc := cutoffScalar (.dfMulti (dfListToMulti ts)) with htcdef
  have htc : tc = listMax (ts.map (fun t => lastD (t.map (fun r => r.1)))) :=
    dfListToMulti_cutoff ts hnets hwf
  set p1 : Int → Bool := winPred tc w1 0 with hp1def
  set ts1 := (ts.map (fun t => t.filter (fun r => p1 r.1))).filter
    (fun t => !t.isEmpty) with hts1
  have hwin1 : dfListWindow ts w1 0 = ts1 := rfl
  have hmem1 : ∀ t1 ∈ ts1, t1 ≠ [] ∧ ∀ q ∈ t1, p1 q.1 = true := by
    intro t1 ht1
    have h1' := List.mem_filter.mp ht1
    constructor
    · simpa [List.isEmpty_iff] using h1'.2
    · rcases List.mem_map.mp h1'.1 with ⟨t, _, rfl⟩
      intro q hq
      exact (List.mem_filter.mp hq).2
  have hmapne : ts.map (fun t => lastD (t.map (fun r => r.1))) ≠ [] := by
    simpa [List.map_eq_nil_iff] using hnets
  have htcm : tc ∈ ts.map (fun t => lastD (t.map (fun r => r.1))) :=
    htc ▸ listMax_mem hmapne
  rcases List.mem_map.mp htcm with ⟨tstar, hts, hlast⟩
  have hp1last : p1 (lastD (tstar.map (fun r => r.1))) = true := by
    rw [hlast]
    exact winPred_self tc w1 h1
  obtain ⟨hfne, hflast⟩ := filter_fst_getLastD tstar p1 (hwf tstar hts) hp1last
  have htstar1 : tstar.filter (fun r => p1 r.1) ∈ ts1 := by
    apply List.mem_filter.mpr
    refine ⟨List.mem_map_of_mem _ hts, ?_⟩
    simpa [List.isEmpty_iff] using hfne
  have hne1 : ts1 ≠ [] := List.ne_nil_of_mem htstar1
  have hwf1 : ∀ t1 ∈ ts1, t1 ≠ [] := fun t1 ht1 => (hmem1 t1 ht1).1
  have htc1 : cutoffScalar (.dfMulti (dfListToMulti ts1)) = tc := by
    rw [dfListToMulti_cutoff ts1 hne1 hwf1]
    apply le_antisymm
    · apply listMax_le (by simpa [List.map_eq_nil_iff] using hne1)
      intro y hy
      rcases List.mem_map.mp hy with ⟨t1, ht1, rfl⟩
      have hl : lastD (t1.map (fun r => r.1)) ∈ t1.map (fun r => r.1) :=
        lastD_mem (by simpa [List.map_eq_nil_iff] using (hmem1 t1 ht1).1)
      rcases List.mem_map.mp hl with ⟨q, hq, hql⟩
      rw [← hql]
      exact winPred_le ((hmem1 t1 ht1).2 q hq)
    · have hx : lastD ((tstar.filter (fun r => p1 r.1)).map (fun r => r.1)) = tc := by
        rw [hflast, hlast]
      exact hx ▸ le_listMax (List.mem_map_of_mem _ htstar1)
  rw [hwin1]
  have hmapid : ts1.map (fun t => t.filter (fun r => winPred tc w2 0 r.1)) = ts1 := by
    have hall : ∀ t1 ∈ ts1, t1.filter (fun r => winPred tc w2 0 r.1) = t1 := by
      intro t1 ht1
      apply List.filter_eq_self.mpr
      intro q hq
      exact winPred_mono h12 ((hmem1 t1 ht1).2 q hq)
    calc ts1.map (fun t => t.filter (fun r => winPred tc w2 0 r.1))
        = ts1.map id := List.map_congr_left hall
      _ = ts1 := List.map_id ts1
  show ((ts1.map (fun t => t.filter (fun r =>
      winPred (cutoffScalar (.dfMulti (dfListToMulti ts1))) w2 0 r.1))).filter
    (fun t => !t.isEmpty)) = ts1
  rw [htc1, hmapid]
  apply List.filter_eq_self.mpr
  intro t1 ht1
  simpa [List.isEmpty_iff] using (hmem1 t1 ht1).1

/-- A nested window over an empty cell batch is empty. -/
theorem nestedWindow_nil_cells (idx : List Int) (w lag : Int) :
    nestedWindow idx [] w lag = ([], []) := by
  simp [nestedWindow, List.zip_nil_right]

/-- The cutoff `get_window` computes for a nested-cell frame — the cutoff
of its conversion to a MultiIndexed frame — is the maximum of the cells'
last index values. -/
theorem nestedToMulti_cutoff (idx : List Int) (cs : List (List Int × List Int))
    (hlen : cs.length = idx.length) (hidx : idx ≠ []) (hnd : idx.Nodup)
    (hcells : ∀ c ∈ cs, c.1.length = c.2.length ∧ c.1 ≠ []) :
    cutoffScalar (.dfMulti (nestedToMulti idx cs))
      = listMax ((idx.zip cs).map (fun p => lastD p.2.1)) := by
  unfold nestedToMulti
  have hzlen : (idx.zip cs).length = idx.length := by
    rw [List.length_zip, hlen, min_self]
  have hzne : idx.zip cs ≠ [] := by
    intro hcon
    have hl0 := congrArg List.length hcon
    rw [hzlen] at hl0
    exact hidx (List.eq_nil_of_length_eq_zero (by simpa using hl0))
  have hne' : (idx.zip cs).map
      (fun p => (([p.1] : List Int), p.2.1.zip p.2.2)) ≠ [] := by
    simpa [List.map_eq_nil_iff] using hzne
  have hkeys : ((idx.zip cs).map
      (fun p => (([p.1] : List Int), p.2.1.zip p.2.2))).map (fun p => p.1)
      = idx.map (fun i => ([i] : List Int)) := by
    rw [List.map_map, show ((fun (p : TPair) => p.1) ∘
        (fun (p : Int × (List Int × List Int)) =>
          (([p.1] : List Int), p.2.1.zip p.2.2)))
      = ((fun i => ([i] : List Int)) ∘
          (fun (p : Int × (List Int × List Int)) => p.1)) from rfl]
    rw [← List.map_map, map_fst_zip_eq idx cs hlen.symm]
  have hnd' : (((idx.zip cs).map
      (fun p => (([p.1] : List Int), p.2.1.zip p.2.2))).map
        (fun p => p.1)).Nodup := by
    rw [hkeys]
    refine hnd.map ?_
    intro a b h
    simpa using h
  have htb' : ∀ p ∈ (idx.zip cs).map
      (fun p => (([p.1] : List Int), p.2.1.zip p.2.2)), p.2 ≠ [] := by
    intro p hp
    rcases List.mem_map.mp hp with ⟨q, hq, rfl⟩
    obtain ⟨a, b⟩ := q
    obtain ⟨hbl, hbn⟩ := hcells b (List.of_mem_zip hq).2
    intro hcon
    have hl0 := congrArg List.length hcon
    rw [List.length_zip, ← hbl, min_self] at hl0
    exact hbn (List.eq_nil_of_length_eq_zero (by simpa using hl0))
  rw [tagged_cutoff hne' hnd' htb', List.map_map]
  refine congrArg listMax (List.map_congr_left ?_)
  intro q hq
  obtain ⟨a, b⟩ := q
  obtain ⟨hbl, _⟩ := hcells b (List.of_mem_zip hq).2
  show lastD ((b.1.zip b.2).map (fun x => x.1)) = lastD b.1
  rw [map_fst_zip_eq b.1 b.2 hbl]

/-- Unfolded form of `nestedWindow`. -/
theorem nestedWindow_eq (idx : List Int) (cs : List (List Int × List Int))
    (w lag : Int) :
    nestedWindow idx cs w lag
      = ((((idx.zip cs).map (fun p => (p.1, (p.2.1.zip p.2.2).filter
            (fun q => winPred (cutoffScalar (.dfMulti (nestedToMulti idx cs)))
              w lag q.1)))).filter (fun p => !p.2.isEmpty)).map (fun p => p.1),
         (((idx.zip cs).map (fun p => (p.1, (p.2.1.zip p.2.2).filter
            (fun q => winPred (cutoffScalar (.dfMulti (nestedToMulti idx cs)))
              w lag q.1)))).filter (fun p => !p.2.isEmpty)).map
            (fun p => (p.2.map (fun q => q.1), p.2.map (fun q => q.2)))) := rfl

/-- Reapplying an equal-or-larger nested-cell window at lag 0 is the
identity on the first window's output. -/
theorem nestedWindow_stable (idx : List Int) (cs : List (List Int × List Int))
    (w1 w2 : Int) (h1 : 1 ≤ w1) (h12 : w1 ≤ w2)
    (hlen : cs.length = idx.length) (hnd : idx.Nodup)
    (hcells : ∀ c ∈ cs, c.1.length = c.2.length ∧ c.1 ≠ []) :
    nestedWindow (nestedWindow idx cs w1 0).1 (nestedWindow idx cs w1 0).2 w2 0
      = nestedWindow idx cs w1 0 := by
  by_cases hidx : idx = []
  · subst hidx
    have hcs : cs = [] := List.eq_nil_of_length_eq_zero (by simpa using hlen)
    subst hcs
    rfl
  set tc := cutoffScalar (.dfMulti (nestedToMulti idx cs)) with htcdef
  have htc : tc = listMax ((idx.zip cs).map (fun p => lastD p.2.1)) :=
    nestedToMulti_cutoff idx cs hlen hidx hnd hcells
  set p1 : Int → Bool := winPred tc w1 0 with hp1def
  set kept := ((idx.zip cs).map (fun p =>
    (p.1, (p.2.1.zip p.2.2).filter (fun q => p1 q.1)))).filter
    (fun p => !p.2.isEmpty) with hkept
  have hnw1 : nestedWindow idx cs w1 0
      = (kept.map (fun p => p.1),
         kept.map (fun p => (p.2.map (fun q => q.1), p.2.map (fun q => q.2)))) := rfl
  have hmemk : ∀ p ∈ kept, p.2 ≠ [] ∧ ∀ q ∈ p.2, p1 q.1 = true := by
    intro p hp
    have h' := List.mem_filter.mp hp
    constructor
    · simpa [List.isEmpty_iff] using h'.2
    · rcases List.mem_map.mp h'.1 with ⟨q, _, rfl⟩
      intro x hx
      exact (List.mem_filter.mp hx).2
  have hzlen : (idx.zip cs).length = idx.length := by
    rw [List.length_zip, hlen, min_self]
  have hzne : idx.zip cs ≠ [] := by
    intro hcon
    have hl0 := congrArg List.length hcon
    rw [hzlen] at hl0
    exact hidx (List.eq_nil_of_length_eq_zero (by simpa using hl0))
  have hmapne : (idx.zip cs).map (fun p => lastD p.2.1) ≠ [] := by
    simpa [List.map_eq_nil_iff] using hzne
  have htcm : tc ∈ (idx.zip cs).map (fun p => lastD p.2.1) :=
    htc ▸ listMax_mem hmapne
  rcases List.mem_map.mp htcm with ⟨pstar, hps, hplast⟩
  have hcstar := hcells pstar.2 (List.of_mem_zip (by exact hps)).2
  have htblne : pstar.2.1.zip pstar.2.2 ≠ [] := by
    intro hcon
    have hl0 := congrArg List.length hcon
    rw [List.length_zip, ← hcstar.1, min_self] at hl0
    exact hcstar.2 (List.eq_nil_of_length_eq_zero (by simpa using hl0))
  have htbl_fst : (pstar.2.1.zip pstar.2.2).map (fun r => r.1) = pstar.2.1 :=
    map_fst_zip_eq pstar.2.1 pstar.2.2 hcstar.1
  have hp1last : p1 (lastD ((pstar.2.1.zip pstar.2.2).map (fun r => r.1))) = true := by
    rw [htbl_fst, hplast]
    exact winPred_self tc w1 h1
  obtain ⟨hfne, hflast⟩ :=
    filter_fst_getLastD (pstar.2.1.zip pstar.2.2) p1 htblne hp1last
  have hkstar : (pstar.1, (pstar.2.1.zip pstar.2.2).filter (fun q => p1 q.1)) ∈ kept := by
    apply List.mem_filter.mpr
    refine ⟨List.mem_map.mpr ⟨pstar, hps, rfl⟩, ?_⟩
    simpa [List.isEmpty_iff] using hfne
  have hkne : kept ≠ [] := List.ne_nil_of_mem hkstar
  set idx1 := kept.map (fun p => p.1) with hidx1
  set cs1 := kept.map (fun p => (p.2.map (fun q => q.1), p.2.map (fun q => q.2))) with hcs1
  have hlen1 : cs1.length = idx1.length := by
    rw [hidx1, hcs1, List.length_map, List.length_map]
  have hidx1ne : idx1 ≠ [] := by
    simpa [hidx1, List.map_eq_nil_iff] using hkne
  have hnd1 : idx1.Nodup := by
    have hsub : List.Sublist kept ((idx.zip cs).map (fun p =>
        (p.1, (p.2.1.zip p.2.2).filter (fun q => p1 q.1)))) := List.filter_sublist _
    have hsub2 : List.Sublist idx1 (((idx.zip cs).map (fun p =>
        (p.1, (p.2.1.zip p.2.2).filter (fun q => p1 q.1)))).map (fun p => p.1)) := by
      rw [hidx1]
      exact hsub.map _
    have hkeys : ((idx.zip cs).map (fun p =>
        (p.1, (p.2.1.zip p.2.2).filter (fun q => p1 q.1)))).map (fun p => p.1)
        = idx := by
      rw [List.map_map]
      exact map_fst_zip_eq idx cs hlen.symm
    rw [hkeys] at hsub2
    exact hnd.sublist hsub2
  have hcells1 : ∀ c ∈ cs1, c.1.length = c.2.length ∧ c.1 ≠ [] := by
    intro c hc
    rcases List.mem_map.mp hc with ⟨p, hp, rfl⟩
    refine ⟨by rw [List.length_map, List.length_map], ?_⟩
    simpa [List.map_eq_nil_iff] using (hmemk p hp).1
  have hzip1 : idx1.zip cs1 = kept.map (fun p =>
      (p.1, (p.2.map (fun q => q.1), p.2.map (fun q => q.2)))) := by
    rw [hidx1, hcs1, List.zip_map']
  have htc1 : cutoffScalar (.dfMulti (nestedToMulti idx1 cs1)) = tc := by
    rw [nestedToMulti_cutoff idx1 cs1 hlen1 hidx1ne hnd1 hcells1]
    have hv : (idx1.zip cs1).map (fun p => lastD p.2.1)
        = kept.map (fun p => lastD (p.2.map (fun q => q.1))) := by
      rw [hzip1, List.map_map]
      rfl
    rw [hv]
    apply le_antisymm
    · apply listMax_le (by simpa [List.map_eq_nil_iff] using hkne)
      intro y hy
      rcases List.mem_map.mp hy with ⟨p, hp, rfl⟩
      have hpne : p.2.map (fun q => q.1) ≠ [] := by
        simpa [List.map_eq_nil_iff] using (hmemk p hp).1
      rcases List.mem_map.mp (lastD_mem hpne) with ⟨q, hq, hql⟩
      rw [← hql]
      exact winPred_le ((hmemk p hp).2 q hq)
    · have hx : lastD (((pstar.2.1.zip pstar.2.2).filter (fun q => p1 q.1)).map
          (fun q => q.1)) = tc := by
        rw [hflast, htbl_fst, hplast]
      exact hx ▸ le_listMax (List.mem_map.mpr ⟨_, hkstar, rfl⟩)
  have hbig : kept.map ((fun (p : Int × (List Int × List Int)) =>
      (p.1, (p.2.1.zip p.2.2).filter (fun q => winPred tc w2 0 q.1))) ∘
      (fun p => (p.1, (p.2.map (fun q => q.1), p.2.map (fun q => q.2)))))
      = kept := by
    have hall : ∀ p ∈ kept, ((fun (p : Int × (List Int × List Int)) =>
        (p.1, (p.2.1.zip p.2.2).filter (fun q => winPred tc w2 0 q.1))) ∘
        (fun p => (p.1, (p.2.map (fun q => q.1), p.2.map (fun q => q.2))))) p
          = p := by
      intro p hp
      show (p.1, ((p.2.map (fun q => q.1)).zip (p.2.map (fun q => q.2))).filter
        (fun q => winPred tc w2 0 q.1)) = p
      have hz : (p.2.map (fun q => q.1)).zip (p.2.map (fun q => q.2)) = p.2 := by
        rw [List.zip_map']
        simp
      rw [hz, List.filter_eq_self.mpr
        (fun q hq => winPred_mono h12 ((hmemk p hp).2 q hq))]
    calc kept.map ((fun (p : Int × (List Int × List Int)) =>
          (p.1, (p.2.1.zip p.2.2).filter (fun q => winPred tc w2 0 q.1))) ∘
          (fun p => (p.1, (p.2.map (fun q => q.1), p.2.map (fun q => q.2)))))
        = kept.map id := List.map_congr_left hall
      _ = kept := List.map_id kept
  have hkeep : kept.filter (fun p => !p.2.isEmpty) = kept := by
    apply List.filter_eq_self.mpr
    intro p hp
    simpa [List.isEmpty_iff] using (hmemk p hp).1
  rw [hnw1]
  show nestedWindow idx1 cs1 w2 0 = (idx1, cs1)
  rw [nestedWindow_eq, htc1, hzip1, List.map_map, hbig, hkeep]

/-- The branch equation of `get_window` for a frame with an object column. -/
theorem get_window_dfSingle_nested (idx : List Int) (cols : List Column)
    (cs : List (List Int × List Int)) (w lag : Int)
    (hobj : hasObjCol cols = true) (hcs : firstNestedCells cols = cs) :
    get_window (.dfSingle idx cols) (some w) lag
      = .ok (.dfSingle (nestedWindow idx cs w lag).1
          [.nested (nestedWindow idx cs w lag).2]) := by
  show (if hasObjCol cols = true then _ else _) = _
  rw [if_pos hobj, hcs]

/-- Well-formedness of a container, automatic for real pandas objects:
columns have as many entries as the index has values; when a frame is a
nested-cell panel its instance index has no duplicates and each cell is a
non-empty series with matching index and value lengths; every member of a
list of tables is non-empty. -/
def Obj.wf : Obj → Bool
  | .series idx vals => vals.length == idx.length
  | .dfSingle idx cols =>
      cols.all (fun c => c.len == idx.length) &&
      (!hasObjCol cols ||
        (decide idx.Nodup && cols.all (fun c =>
          match c with
          | .plain _ => true
          | .nested cs => cs.all (fun cell =>
              cell.1.length == cell.2.length && !cell.1.isEmpty))))
  | .dfList ts => ts.all (fun t => !t.isEmpty)
  | _ => true

/-- Decomposition of the well-formedness of a single-index frame. -/
theorem wf_dfSingle_parts {idx : List Int} {cols : List Column}
    (h : (Obj.dfSingle idx cols).wf = true) :
    (∀ c ∈ cols, c.len = idx.length) ∧
    (hasObjCol cols = true →
      idx.Nodup ∧ ∀ cs, Column.nested cs ∈ cols →
        ∀ cell ∈ cs, cell.1.length = cell.2.length ∧ cell.1 ≠ []) := by
  have h0 : (cols.all (fun c => c.len == idx.length) &&
      (!hasObjCol cols || (decide idx.Nodup && cols.all (fun c =>
        match c with
        | Column.plain _ => true
        | Column.nested cs => cs.all (fun cell =>
            cell.1.length == cell.2.length && !cell.1.isEmpty))))) = true := h
  obtain ⟨h1, h2⟩ := Bool.and_eq_true_iff.mp h0
  refine ⟨?_, ?_⟩
  · intro c hc
    exact eq_of_beq (List.all_eq_true.mp h1 c hc)
  · intro hobj
    rw [hobj] at h2
    simp only [Bool.not_true, Bool.false_or] at h2
    obtain ⟨h3, h4⟩ := Bool.and_eq_true_iff.mp h2
    refine ⟨of_decide_eq_true h3, ?_⟩
    intro cs hcs cell hcell
    have h5 : cs.all (fun cell =>
        cell.1.length == cell.2.length && !cell.1.isEmpty) = true :=
      List.all_eq_true.mp h4 (Column.nested cs) hcs
    obtain ⟨h7, h8⟩ := Bool.and_eq_true_iff.mp (List.all_eq_true.mp h5 cell hcell)
    exact ⟨eq_of_beq h7, by simpa [List.isEmpty_iff] using h8⟩

/-- Claim C8 (amended): a window of `None` is the identity, and reapplying
`get_window` with an equal-or-larger positive window length at lag 0
returns the first window unchanged, for every well-formed container of a
handled shape — flat buffers, series, plain and nested-cell single-index
frames, MultiIndexed frames, and lists of tables. -/
theorem claim_C8_window_idempotent :
    (∀ (obj : Obj) (lag : Int), get_window obj Option.none lag = .ok obj) ∧
    (∀ (obj : Obj) (w1 w2 : Int), obj.isOther = false → obj.wf = true →
      1 ≤ w1 → w1 ≤ w2 →
      ∃ r : Obj, get_window obj (some w1) 0 = .ok r ∧
        get_window r (some w2) 0 = .ok r) := by
  constructor
  · intro obj lag; rfl
  · intro obj w1 w2 hoth hwf h1 h12
    cases obj with
    | npa a =>
        refine ⟨.npa (npWindow a w1 0), rfl, ?_⟩
        show Except.ok (Obj.npa (npWindow (npWindow a w1 0) w2 0)) = _
        rw [npWindow_idem a w1 w2 h1 h12]
    | series idx vals =>
        have hwf' : vals.length = idx.length := by
          simpa [Obj.wf] using hwf
        by_cases hne : idx = []
        · subst hne
          have hv : vals = [] := List.eq_nil_of_length_eq_zero hwf'
          subst hv
          exact ⟨.series [] [], by rw [get_window_series]; rfl,
            by rw [get_window_series]; rfl⟩
        · have hcs : cutoffScalar (.dfSingle idx [.plain vals]) = lastD idx :=
            cutoffScalar_dfSingle_plain idx [.plain vals] rfl hne
          obtain ⟨hs1, hs2, hs3⟩ := idx_filter_stable idx w1 w2 h1 h12 hne
          refine ⟨.series (idx.filter (winPred (lastD idx) w1 0))
            (maskFilter vals (idx.map (winPred (lastD idx) w1 0))), ?_, ?_⟩
          · rw [get_window_series, hcs]
          · have hlen1 : (maskFilter vals
                (idx.map (winPred (lastD idx) w1 0))).length
                = (idx.filter (winPred (lastD idx) w1 0)).length :=
              maskFilter_map_length vals idx _ hwf'
            rw [get_window_series,
              cutoffScalar_dfSingle_plain _ _ (by rfl) hs1, hs2,
              List.filter_eq_self.mpr hs3,
              maskFilter_all_true _ _ (by rw [hlen1, List.length_map])
                (map_winPred_all_true hs3)]
    | dfSingle idx cols =>
        obtain ⟨hwflen, hwfnest⟩ := wf_dfSingle_parts hwf
        by_cases hobj : hasObjCol cols = true
        · -- frame with an object column: the nested-cell conversion path
          obtain ⟨hnodup, hcellsall⟩ := hwfnest hobj
          cases cols with
          | nil => simp [hasObjCol] at hobj
          | cons c rest =>
            cases c with
            | plain v =>
                -- the modelled conversion covers the first column only,
                -- and here it is numeric: the windowed batch is empty
                refine ⟨.dfSingle (nestedWindow idx [] w1 0).1
                  [.nested (nestedWindow idx [] w1 0).2],
                  get_window_dfSingle_nested idx _ [] w1 0 hobj rfl, ?_⟩
                rw [get_window_dfSingle_nested _ _
                  ((nestedWindow idx [] w1 0).2) w2 0 (by rfl) (by rfl),
                  nestedWindow_nil_cells idx w1 0]
                rfl
            | nested cs =>
                have hlen' : cs.length = idx.length := by
                  simpa [Column.len]
                    using hwflen (Column.nested cs) (List.mem_cons_self _ _)
                have hcells' : ∀ cell ∈ cs,
                    cell.1.length = cell.2.length ∧ cell.1 ≠ [] :=
                  hcellsall cs (List.mem_cons_self _ _)
                refine ⟨.dfSingle (nestedWindow idx cs w1 0).1
                  [.nested (nestedWindow idx cs w1 0).2],
                  get_window_dfSingle_nested idx _ cs w1 0 hobj rfl, ?_⟩
                rw [get_window_dfSingle_nested _ _
                  ((nestedWindow idx cs w1 0).2) w2 0 (by rfl) (by rfl),
                  nestedWindow_stable idx cs w1 w2 h1 h12 hlen' hnodup hcells']
        · -- plain frame: sliced in place
          have hc : hasObjCol cols = false := by
            simpa using hobj
          have hwf' : ∀ c ∈ cols, c.len = idx.length := hwflen
          by_cases hne : idx = []
          · subst hne
            refine ⟨.dfSingle [] (cols.map (colMask [])), ?_, ?_⟩
            · rw [get_window_dfSingle_plain _ _ _ _ hc]; rfl
            · have hc1 : hasObjCol (cols.map (colMask [])) = false := by
                rw [hasObjCol_map_colMask]; exact hc
              rw [get_window_dfSingle_plain _ _ _ _ hc1]
              have hmm : (cols.map (colMask [])).map (colMask [])
                  = cols.map (colMask []) := by
                rw [List.map_map]
                exact List.map_congr_left (fun c _ => colMask_nil_idem c)
              show Except.ok (Obj.dfSingle []
                ((cols.map (colMask [])).map (colMask []))) = _
              rw [hmm]
          · have hcs : cutoffScalar (.dfSingle idx cols) = lastD idx :=
              cutoffScalar_dfSingle_plain idx cols hc hne
            obtain ⟨hs1, hs2, hs3⟩ := idx_filter_stable idx w1 w2 h1 h12 hne
            refine ⟨.dfSingle (idx.filter (winPred (lastD idx) w1 0))
              (cols.map (colMask (idx.map (winPred (lastD idx) w1 0)))), ?_, ?_⟩
            · rw [get_window_dfSingle_plain _ _ _ _ hc, hcs]
            · have hc1 : hasObjCol (cols.map (colMask
                  (idx.map (winPred (lastD idx) w1 0)))) = false := by
                rw [hasObjCol_map_colMask]; exact hc
              rw [get_window_dfSingle_plain _ _ _ _ hc1,
                cutoffScalar_dfSingle_plain _ _ hc1 hs1, hs2,
                List.filter_eq_self.mpr hs3]
              have hcols : (cols.map (colMask (idx.map (winPred (lastD idx) w1 0)))).map
                  (colMask ((idx.filter (winPred (lastD idx) w1 0)).map
                    (winPred (lastD idx) w2 0)))
                  = cols.map (colMask (idx.map (winPred (lastD idx) w1 0))) := by
                rw [List.map_map]
                refine List.map_congr_left (fun c hcm => ?_)
                show colMask _ (colMask _ c) = colMask _ c
                refine colMask_all_true _ _ ?_ (map_winPred_all_true hs3)
                rw [List.length_map]
                exact colMask_map_len c idx _ (hwf' c hcm)
              rw [hcols]
    | dfMulti rows =>
        refine ⟨.dfMulti (dfMultiWindow rows w1 0), rfl, ?_⟩
        show Except.ok (Obj.dfMulti (dfMultiWindow (dfMultiWindow rows w1 0) w2 0)) = _
        rw [dfMulti_window_stable rows w1 w2 h1 h12]
    | dfList ts =>
        have hwfb : ts.all (fun t => !t.isEmpty) = true := hwf
        have hwf' : ∀ t ∈ ts, t ≠ [] := by
          intro t ht
          simpa [List.isEmpty_iff] using List.all_eq_true.mp hwfb t ht
        refine ⟨.dfList (dfListWindow ts w1 0), rfl, ?_⟩
        show Except.ok (Obj.dfList (dfListWindow (dfListWindow ts w1 0) w2 0)) = _
        rw [dfListWindow_stable ts w1 w2 h1 h12 hwf']
    | other n => simp [Obj.isOther] at hoth

/-- Witness for C8: the `None` identity at a concrete buffer, and the
idempotence applied at a concrete series and at a concrete ragged list of
tables, with window lengths 2 then 3. -/
theorem claim_C8_witness :
    get_window (.npa (.d1 [1,2,3])) Option.none 7 = .ok (.npa (.d1 [1,2,3])) ∧
    ((Obj.series [0,1,2] [10,20,30]).isOther = false ∧
      (Obj.series [0,1,2] [10,20,30]).wf = true ∧
      (1 : Int) ≤ 2 ∧ (2 : Int) ≤ 3 ∧
      ∃ r : Obj, get_window (.series [0,1,2] [10,20,30]) (some 2) 0 = .ok r ∧
        get_window r (some 3) 0 = .ok r) ∧
    ((Obj.dfList [[(0,5),(1,6)],[(2,7)]]).isOther = false ∧
      (Obj.dfList [[(0,5),(1,6)],[(2,7)]]).wf = true ∧
      ∃ r : Obj, get_window (.dfList [[(0,5),(1,6)],[(2,7)]]) (some 2) 0 = .ok r ∧
        get_window r (some 3) 0 = .ok r) :=
  ⟨claim_C8_window_idempotent.1 (.npa (.d1 [1,2,3])) 7,
   ⟨by decide, by decide, by decide, by decide,
    claim_C8_window_idempotent.2 (.series [0,1,2] [10,20,30]) 2 3
      (by decide) (by decide) (by decide) (by decide)⟩,
   ⟨by decide, by decide,
    claim_C8_window_idempotent.2 (.dfList [[(0,5),(1,6)],[(2,7)]]) 2 3
      (by decide) (by decide) (by decide) (by decide)⟩⟩

/-- Counterexample to claim C8 as literally stated (no positivity
assumption on the window lengths): on a flat buffer a window length of 0
computes slice bounds `0:0`, which the end-of-slice special case turns into
the whole buffer; reapplying the larger window 1 ≥ 0 then shrinks it, so
`get_window(get_window(C, 0), 1) ≠ get_window(C, 0)`. -/
theorem claim_C8_counterexample :
    get_window (.npa (.d1 [1,2,3])) (some 0) 0 = .ok (.npa (.d1 [1,2,3])) ∧
    get_window (.npa (.d1 [1,2,3])) (some 1) 0 = .ok (.npa (.d1 [3])) ∧
    ((0 : Int) ≤ 1) ∧
    (Except.ok (Obj.npa (.d1 [3])) : Except PyErr Obj) ≠ .ok (.npa (.d1 [1,2,3])) := by
  refine ⟨by decide, by decide, by decide, by decide⟩
